import Mathlib

/-!
Verification development for the librbd client-side I/O dispatch core
(`src/librbd/io/AsyncOperation.cc`, `src/librbd/io/ImageDispatcher.cc/h`,
`src/librbd/AsioEngine.cc`).

The development shallowly embeds:
* the per-image async-operation tracker (`AsyncOperation::start_op`,
  `finish_op`, `flush` and the `C_CompleteFlushes` completion);
* the image dispatcher's preprocessing (`ImageDispatcher::PreprocessVisitor`,
  `send_dispatch`, `preprocess`, the transaction-id counter `m_next_tid`);
* the layer registration performed by the `ImageDispatcher` constructor and
  the shutdown sequencing of `ImageDispatcher::shut_down`.

Operations are identified by natural-number ids; flush callbacks
(`Context*` values) likewise.  Machine integers (`uint64_t m_next_tid`)
are embedded as `Nat` with explicit reduction modulo `2 ^ 64`.
-/

namespace Librbd

/-! ## Async operation tracker (`librbd/io/AsyncOperation.cc`) -/

/-- A completion posted on the image's `AsioEngine`.

* `flushBatch cbs r` models `C_CompleteFlushes` (posted with result `r` by
  `AsyncOperation::finish_op`): it carries the list of pending flush contexts.
* `single cb r` models a direct `asio_engine->post(on_finish, r)` from
  `AsyncOperation::flush`. -/
inductive PostedItem
  | flushBatch (cbs : List Nat) (r : Int)
  | single (cb : Nat) (r : Int)
deriving DecidableEq

/-- The callbacks contained in a posted completion. -/
def PostedItem.cbs : PostedItem → List Nat
  | .flushBatch cbs _ => cbs
  | .single cb _ => [cb]

/-- One delivered (actually executed) completion: the callback, the result
code it was completed with, and whether the image's owner lock was held
shared around the invocation. -/
structure Delivery where
  cb : Nat
  result : Int
  ownerLockShared : Bool
deriving DecidableEq

/-- Executing one posted completion on the event loop.

`C_CompleteFlushes::finish` acquires `image_ctx->owner_lock` shared and
completes every queued flush context with result `0` (it ignores the result
the completion itself was posted with).  A directly posted context is
completed with the posted result, with no owner lock taken. -/
def deliverItem : PostedItem → List Delivery
  | .flushBatch cbs _ => cbs.map (fun c => ⟨c, 0, true⟩)
  | .single cb r => [⟨cb, r, false⟩]

/-- The tracker-visible state of one image.

* `startedEver` — ids of operations whose `m_image_ctx` back-pointer has been
  set by `start_op` (it is never cleared, not even by `finish_op`);
* `ops` — the image's `async_ops` intrusive list, newest operation first
  (`start_op` does `push_front`);
* `fc o` — the `m_flush_contexts` queue of operation `o`;
* `posted` — completions handed to `AsioEngine::post`, in posting order,
  not yet executed by the event loop;
* `delivered` — completions already executed by the event loop. -/
structure Tracker where
  startedEver : List Nat
  ops : List Nat
  fc : Nat → List Nat
  posted : List PostedItem
  delivered : List Delivery

/-- Pointwise update of a flush-context map. -/
def updFc (f : Nat → List Nat) (k : Nat) (v : List Nat) : Nat → List Nat :=
  fun o => if o = k then v else f o

/-- The immediate older neighbour of `x` in the `async_ops` list: the element
following `x`'s first occurrence.  This is `++iter` on an `xlist` iterator
positioned at `x` (the list is stored newest → oldest). -/
def olderNeighbor : List Nat → Nat → Option Nat
  | [], _ => none
  | a :: rest, x => if a = x then rest.head? else olderNeighbor rest x

/-- All callbacks contained in a list of posted completions. -/
def cbsOf (l : List PostedItem) : List Nat :=
  l.foldr (fun it acc => it.cbs ++ acc) []

/-- All callbacks currently sitting in posted (scheduled, not yet executed)
completions. -/
def postedCbs (s : Tracker) : List Nat :=
  cbsOf s.posted

/-- Embedding of `AsyncOperation::started`: whether the operation is linked into the
image's `async_ops` list (`m_xlist_item.is_on_list()`). -/
def started (s : Tracker) (o : Nat) : Bool :=
  s.ops.contains o

/-- The `ceph_assert(!m_xlist_item.is_on_list())` in `~AsyncOperation` fails,
i.e. destroying operation `o` in state `s` is a fatal assertion failure. -/
def destroyAsserts (s : Tracker) (o : Nat) : Prop :=
  o ∈ s.ops

/-- Embedding of `AsyncOperation::start_op`: asserts `m_image_ctx == NULL` (the operation
has never been started), sets the back-pointer and pushes the operation onto
the front of the image's list.  `none` models the fatal assertion failure. -/
def startOp (s : Tracker) (o : Nat) : Option Tracker :=
  if o ∈ s.startedEver then none
  else some { s with startedEver := o :: s.startedEver, ops := o :: s.ops }

/-- Embedding of `AsyncOperation::finish_op`, for an operation `x` currently on the list:
take the iterator successor (the immediate older neighbour), unlink `x`, and

* if an older neighbour exists and `x` has pending flush contexts, append
  them to the neighbour's queue and return (nothing is posted);
* otherwise, once outside the lock, if `x` has pending flush contexts, post a
  single consolidated `C_CompleteFlushes` (with result `0`), moving the
  contexts out of `x`. -/
def finishOp (s : Tracker) (x : Nat) : Tracker :=
  match olderNeighbor s.ops x with
  | some y =>
    if s.fc x = [] then
      { s with ops := s.ops.erase x }
    else
      { s with ops := s.ops.erase x, fc := updFc s.fc y (s.fc y ++ s.fc x) }
  | none =>
    if s.fc x = [] then
      { s with ops := s.ops.erase x }
    else
      { s with ops := s.ops.erase x, fc := updFc s.fc x [],
               posted := s.posted ++ [.flushBatch (s.fc x) 0] }

/-- Embedding of `AsyncOperation::flush on_finish`, for an operation `x` currently on the
list: if `x` has an immediate older neighbour, append `on_finish` to the
neighbour's pending-flush queue; otherwise post `on_finish` with result `0`
(after releasing the lock).  Nothing is ever invoked inline. -/
def flushOn (s : Tracker) (x : Nat) (cb : Nat) : Tracker :=
  match olderNeighbor s.ops x with
  | some y => { s with fc := updFc s.fc y (s.fc y ++ [cb]) }
  | none => { s with posted := s.posted ++ [.single cb 0] }

/-- Tracker events: starting an operation, finishing it, attaching a flush
callback through it. -/
inductive Ev
  | start (o : Nat)
  | finish (o : Nat)
  | flush (o : Nat) (cb : Nat)
deriving DecidableEq

/-- One tracker step.  `none` models a fatal `ceph_assert` failure
(`start_op` on an already-associated operation, `finish_op`/`flush` on an
operation that is not linked into the list). -/
def stepO (s : Tracker) : Ev → Option Tracker
  | .start o => startOp s o
  | .finish x => if x ∈ s.ops then some (finishOp s x) else none
  | .flush x cb => if x ∈ s.ops then some (flushOn s x cb) else none

/-- Running a sequence of tracker events. -/
def runO : Tracker → List Ev → Option Tracker
  | s, [] => some s
  | s, e :: rest =>
    match stepO s e with
    | none => none
    | some s' => runO s' rest

/-- The event loop executes the oldest posted completion. -/
def runPostedHead (s : Tracker) : Tracker :=
  match s.posted with
  | [] => s
  | item :: rest => { s with posted := rest, delivered := s.delivered ++ deliverItem item }

/-- Basic well-formedness of a tracker state: the intrusive list has no
duplicates and only ever contains operations that have been started. -/
def WFTracker (s : Tracker) : Prop :=
  s.ops.Nodup ∧ ∀ o ∈ s.ops, o ∈ s.startedEver

/-! ## Image dispatcher (`librbd/io/ImageDispatcher.cc/h`) -/

/-- Embedding of `librbd::io::ImageArea`: the address space a request targets. -/
inductive ImageArea
  | data
  | cryptoHeader
deriving DecidableEq

/-- One offset/length extent of a request. -/
structure Extent where
  offset : Nat
  len : Nat
deriving DecidableEq

/-- Modelled from the spec: the request flag selecting the auxiliary
(crypto-header) address space; a single bit of `image_dispatch_flags`
(`IMAGE_DISPATCH_FLAG_CRYPTO_HEADER`, value not in the provided sources). -/
def IMAGE_DISPATCH_FLAG_CRYPTO_HEADER : Nat := 1

/-- Modelled from the spec: the read flag disabling clipping
(`READ_FLAG_DISABLE_CLIPPING`, a distinct bit; value not in the provided
sources). -/
def READ_FLAG_DISABLE_CLIPPING : Nat := 2

/-- Constant `CEPH_NOSNAP`, the snapshot id denoting "no snapshot pinned"
(`(uint64_t)(-2)`). -/
def CEPH_NOSNAP : Nat := 2 ^ 64 - 2

/-- Error code `-EINVAL`. -/
def EINVAL_ERR : Int := -22

/-- Error code `-EROFS`, the read-only error. -/
def EROFS_ERR : Int := -30

/-- The tagged request payload (`ImageDispatchSpec::Request`), restricted to
the fields preprocessing inspects: a read carries its `read_flags`. -/
inductive Request
  | read (readFlags : Nat)
  | write
  | discard
  | writeSame
  | compareAndWrite
  | flush
  | listSnaps
deriving DecidableEq

/-- The dispatcher-visible part of an `ImageDispatchSpec`: transaction id
(`0` until assigned), the byte-range extents, the layer-flags bitmask, the
tagged payload, and the completion outcome (`some r` once the spec has been
failed/completed with result `r`, `none` while still pending). -/
structure ImageDispatchSpec where
  tid : Nat
  imageExtents : List Extent
  imageDispatchFlags : Nat
  request : Request
  result : Option Int
deriving DecidableEq

/-- Embedding of `ImageDispatchSpec::fail r`: completes the request's completion handle
with the error `r`. -/
def fail (spec : ImageDispatchSpec) (r : Int) : ImageDispatchSpec :=
  { spec with result := some r }

/-- The image-metadata state preprocessing consults: the current extent of
each address space, the pinned snapshot id and the read-only flag. -/
structure ImageCtx where
  dataSize : Nat
  cryptoHeaderSize : Nat
  snapId : Nat
  readOnly : Bool
deriving DecidableEq

/-- The current extent of an address space of the image. -/
def areaSize (ctx : ImageCtx) : ImageArea → Nat
  | .data => ctx.dataSize
  | .cryptoHeader => ctx.cryptoHeaderSize

/-- Modelled from the spec: `librbd::io::util::clip_request` (its definition,
`librbd/io/Utils.cc`, is not among the provided sources).  Each extent is
clipped to the image's current extent in the selected address space: an
extent starting beyond the end of the image is an error (`-EINVAL`),
otherwise its length is reduced to fit. -/
def clip_request (ctx : ImageCtx) (extents : List Extent) (area : ImageArea) :
    Except Int (List Extent) :=
  extents.mapM (fun e =>
    if areaSize ctx area < e.offset then .error EINVAL_ERR
    else .ok ⟨e.offset, min e.len (areaSize ctx area - e.offset)⟩)

/-- The address space selected by the request's layer-flags bitmask
(`PreprocessVisitor::clip_request`). -/
def selectArea (spec : ImageDispatchSpec) : ImageArea :=
  if spec.imageDispatchFlags &&& IMAGE_DISPATCH_FLAG_CRYPTO_HEADER ≠ 0 then
    ImageArea.cryptoHeader
  else
    ImageArea.data

/-- Embedding of `PreprocessVisitor::clip_request`: clip the spec's extents to the image
extent of the selected address space.  On failure the spec is failed with the
clipping error and the request is finished (`true`); on success the clipped
extents are stored and processing continues (`false`). -/
def clipRequestStep (ctx : ImageCtx) (spec : ImageDispatchSpec) :
    Bool × ImageDispatchSpec :=
  match clip_request ctx spec.imageExtents (selectArea spec) with
  | .error r => (true, fail spec r)
  | .ok exts => (false, { spec with imageExtents := exts })

/-- Embedding of `ImageDispatcher::PreprocessVisitor`, one arm per request kind:

* a read with `READ_FLAG_DISABLE_CLIPPING` set is passed through unchanged;
* any other read, and a flush, is clipped;
* a list-snapshots request is passed through unchanged;
* every other (mutating) kind is clipped, and then — under the image lock —
  failed with `-EROFS` if the image is pinned to a snapshot or read-only. -/
def preprocessVisit (ctx : ImageCtx) (spec : ImageDispatchSpec) :
    Bool × ImageDispatchSpec :=
  match spec.request with
  | .read flags =>
    if flags &&& READ_FLAG_DISABLE_CLIPPING ≠ 0 then (false, spec)
    else clipRequestStep ctx spec
  | .flush => clipRequestStep ctx spec
  | .listSnaps => (false, spec)
  | .write | .discard | .writeSame | .compareAndWrite =>
    match clipRequestStep ctx spec with
    | (true, spec') => (true, spec')
    | (false, spec') =>
      if ctx.snapId ≠ CEPH_NOSNAP ∨ ctx.readOnly = true then
        (true, fail spec' EROFS_ERR)
      else
        (false, spec')

/-- Embedding of `ImageDispatcher::preprocess`: apply the preprocess visitor to the
request. -/
def preprocess (ctx : ImageCtx) (spec : ImageDispatchSpec) :
    Bool × ImageDispatchSpec :=
  preprocessVisit ctx spec

/-- The dispatcher state relevant to `send_dispatch`: the `m_next_tid`
counter (`std::atomic<uint64_t>`, initially `0`). -/
structure DispatcherState where
  nextTid : Nat
deriving DecidableEq

/-- The tid `++m_next_tid` hands out from state `st` (uint64 increment). -/
def assignedTid (st : DispatcherState) : Nat :=
  (st.nextTid + 1) % 2 ^ 64

/-- The observable outcome of `send_dispatch`:

* `handledByPreprocess spec` — preprocessing finished the request, the layer
  was never invoked and `send_dispatch` returned `true`;
* `toLayer spec` — the `SendVisitor` routed the request, in the state `spec`,
  to the target layer's handler for its kind. -/
inductive DispatchStep
  | handledByPreprocess (spec : ImageDispatchSpec)
  | toLayer (spec : ImageDispatchSpec)
deriving DecidableEq

/-- The request state an outcome carries. -/
def DispatchStep.spec : DispatchStep → ImageDispatchSpec
  | .handledByPreprocess s => s
  | .toLayer s => s

/-- Embedding of `ImageDispatcher::send_dispatch`: on first entry (tid `0`) assign
`++m_next_tid` and run preprocessing, returning `true` (handled) if
preprocessing finished the request; otherwise route the request to the
layer via the `SendVisitor`. -/
def send_dispatch (st : DispatcherState) (ctx : ImageCtx)
    (spec : ImageDispatchSpec) : DispatcherState × DispatchStep :=
  if spec.tid = 0 then
    let st' : DispatcherState := { nextTid := assignedTid st }
    let spec' := { spec with tid := assignedTid st }
    match preprocess ctx spec' with
    | (true, spec'') => (st', .handledByPreprocess spec'')
    | (false, spec'') => (st', .toLayer spec'')
  else
    (st, .toLayer spec)

/-- Sequentially dispatch a list of requests, collecting the request states
observed at the end of each `send_dispatch` call. -/
def dispatchAll (ctx : ImageCtx) :
    DispatcherState → List ImageDispatchSpec →
    DispatcherState × List ImageDispatchSpec
  | st, [] => (st, [])
  | st, spec :: rest =>
    let p := send_dispatch st ctx spec
    let q := dispatchAll ctx p.1 rest
    (q.1, p.2.spec :: q.2)

/-- Whether preprocessing exempts this request from clipping: a read with
`READ_FLAG_DISABLE_CLIPPING` set, or a list-snapshots request. -/
def isClipExempt (spec : ImageDispatchSpec) : Bool :=
  match spec.request with
  | .read flags => flags &&& READ_FLAG_DISABLE_CLIPPING ≠ 0
  | .listSnaps => true
  | _ => false

/-- Whether the request kind is mutating (not read, not flush, not
list-snapshots); these take the write-class validation arm of the
preprocess visitor. -/
def isMutating : Request → Bool
  | .write | .discard | .writeSame | .compareAndWrite => true
  | _ => false

/-! ## Layer registration and shutdown -/

/-- The image dispatch layers named by the sources (ordinals from the
documented processing order in `ImageDispatcher.h`). -/
inductive Layer
  | queue
  | qos
  | exclusiveLock
  | refresh
  | migration
  | journal
  | writeBlock
  | writebackCache
  | core
deriving DecidableEq

/-- The processing ordinal of a layer, as documented in `ImageDispatcher.h`
(the processing order is queue, qos, exclusive-lock, refresh, migration,
journal, write-block, writeback-cache, core). -/
def layerOrdinal : Layer → Nat
  | .queue => 1
  | .qos => 2
  | .exclusiveLock => 3
  | .refresh => 4
  | .migration => 5
  | .journal => 6
  | .writeBlock => 7
  | .writebackCache => 8
  | .core => 9

/-- The `register_dispatch` calls of the `ImageDispatcher` constructor, in
source order: the core `ImageDispatch` first, then `QueueImageDispatch`,
`QosImageDispatch`, `RefreshImageDispatch`, `WriteBlockImageDispatch`. -/
def registrationOrder : List Layer :=
  [.core, .queue, .qos, .refresh, .writeBlock]

/-- Ordered insertion by processing ordinal (the registry is keyed by the
layer ordinal, so iteration is in ascending ordinal order). -/
def insertByOrdinal (l : Layer) : List Layer → List Layer
  | [] => [l]
  | x :: xs =>
    if layerOrdinal l ≤ layerOrdinal x then l :: x :: xs
    else x :: insertByOrdinal l xs

/-- Modelled from the spec: the base dispatcher routes every request through
the registered layers in ascending layer-ordinal order (the registry,
`Dispatcher<I,D>::m_dispatches`, is not among the provided sources; the
in-source header documents the processing order, core last). -/
def processingOrder : List Layer :=
  registrationOrder.foldr insertByOrdinal []

/-- The abstract actions of the dispatcher shutdown path. -/
inductive ShutdownAction
  | invalidateCache
  | startThrowawayOp
  | flushThrowawayOp
  | shutDownLayer (l : Layer)
  | finishThrowawayOp
  | destroyThrowawayOp
  | completeCaller
deriving DecidableEq

/-- The synchronous body of `ImageDispatcher::shut_down`: allocate a
throwaway `AsyncOperation`, wrap the callbacks, `start_op` it and issue a
`flush` through it.  Nothing else happens before the flush completes. -/
def shutDownImmediateActions : List ShutdownAction :=
  [.startThrowawayOp, .flushThrowawayOp]

/-- Modelled from the spec: the base dispatcher's `shut_down` (not among the
provided sources) tears the registered layers down in the reverse of
registration order, then completes its callback. -/
def baseShutDownActions : List ShutdownAction :=
  registrationOrder.reverse.map ShutdownAction.shutDownLayer

/-- The actions triggered by the completion of the shutdown flush: the outer
`LambdaContext` runs the base-dispatcher shutdown (layer teardown), whose
completion runs the inner `LambdaContext` (`finish_op` on the throwaway
operation, its deletion, and the caller's completion). -/
def shutDownOnFlushActions : List ShutdownAction :=
  baseShutDownActions ++ [.finishThrowawayOp, .destroyThrowawayOp, .completeCaller]

/-- The complete action sequence of a dispatcher shutdown. -/
def shutDownActions : List ShutdownAction :=
  shutDownImmediateActions ++ shutDownOnFlushActions

/-! ## Barrier invariant and concrete states -/

/-- The invariant tying a flush callback `cb`, attached while the operations
in `P` were the in-flight ones no newer than the attach point, to the tracker
state: either `cb` sits in the pending-flush queue of a carrier operation
`c ∈ P` such that every in-flight member of `P` is at `c`'s position or older,
or `cb` has been posted and every member of `P` has finished. -/
def BarrierInv (P : List Nat) (cb : Nat) (s : Tracker) : Prop :=
  s.ops.Nodup ∧ (∀ o ∈ s.ops, o ∈ s.startedEver) ∧ (∀ p ∈ P, p ∈ s.startedEver) ∧
  ((∃ newer c older,
      s.ops = newer ++ c :: older ∧ c ∈ P ∧ (∀ p ∈ older, p ∈ P) ∧
      (∀ p ∈ P, p ∈ s.ops → p ∈ c :: older) ∧
      cb ∈ s.fc c ∧ (∀ o ∈ s.ops, o ≠ c → cb ∉ s.fc o) ∧
      (∀ o, o ∉ s.startedEver → cb ∉ s.fc o) ∧ cb ∉ postedCbs s)
   ∨ (cb ∈ postedCbs s ∧ ∀ p ∈ P, p ∉ s.ops))

/-- The empty flush-context map. -/
def exFc0 : Nat → List Nat := fun _ => []

/-- A tracker with no operation ever started. -/
def exEmpty : Tracker := ⟨[], [], exFc0, [], []⟩

/-- A tracker with a single started operation `0`. -/
def exTracker0 : Tracker := ⟨[0], [0], exFc0, [], []⟩

/-- The state after attaching flush callback `2` through a fresh operation `1`
on `exTracker0`. -/
def exTracker1 : Tracker :=
  (runO exTracker0 [Ev.start 1, Ev.flush 1 2]).getD exEmpty

/-- The state after then finishing the older operation `0`. -/
def exTracker2 : Tracker :=
  (runO exTracker1 [Ev.finish 0]).getD exEmpty

/-- A tracker with operations `5` (newest, with pending flush context `9`)
and `4` (older). -/
def exTrackerTwo : Tracker := ⟨[5, 4], [5, 4], updFc exFc0 5 [9], [], []⟩

/-- A tracker with a single started operation `3`, used for the shutdown
barrier instance: the image has one in-flight operation when `shut_down`
runs. -/
def exTrackerB0 : Tracker := ⟨[3], [3], exFc0, [], []⟩

/-- The state after `shut_down` starts the throwaway operation `6` and
flushes callback `8` through it on `exTrackerB0`. -/
def exTrackerB1 : Tracker :=
  (runO exTrackerB0 [Ev.start 6, Ev.flush 6 8]).getD exEmpty

/-- The state after the in-flight operation `3` then finishes. -/
def exTrackerB2 : Tracker :=
  (runO exTrackerB1 [Ev.finish 3]).getD exEmpty

/-- The state after starting operation `0` on the empty tracker. -/
def exStart0 : Tracker := (stepO exEmpty (Ev.start 0)).getD exEmpty

/-- The state after then finishing operation `0`. -/
def exFin0 : Tracker := (stepO exStart0 (Ev.finish 0)).getD exEmpty

/-- An image of 1024 bytes, writable, at the current snapshot. -/
def exCtx : ImageCtx := ⟨1024, 0, CEPH_NOSNAP, false⟩

/-- A read-only image of 1024 bytes. -/
def exCtxRO : ImageCtx := ⟨1024, 0, CEPH_NOSNAP, true⟩

/-- A read request with `READ_FLAG_DISABLE_CLIPPING` set whose extent lies
beyond the image's 1024-byte extent. -/
def exReadSpec : ImageDispatchSpec :=
  ⟨0, [⟨2000, 100⟩], 0, Request.read READ_FLAG_DISABLE_CLIPPING, none⟩

/-- A plain read request (no flags) whose extent lies beyond the image's
1024-byte extent. -/
def exPlainReadSpec : ImageDispatchSpec :=
  ⟨0, [⟨2000, 100⟩], 0, Request.read 0, none⟩

/-- An in-bounds write request. -/
def exWriteSpec : ImageDispatchSpec := ⟨0, [⟨0, 10⟩], 0, Request.write, none⟩

/-- A flush request that has not yet been assigned a tid. -/
def exFlushSpec : ImageDispatchSpec := ⟨0, [], 0, Request.flush, none⟩

/-- A request that has already been assigned tid `1`. -/
def exTidSpec : ImageDispatchSpec := ⟨1, [⟨0, 4⟩], 0, Request.write, none⟩

/-! ## Helper lemmas -/

theorem cbsOf_append (l₁ l₂ : List PostedItem) :
    cbsOf (l₁ ++ l₂) = cbsOf l₁ ++ cbsOf l₂ := by
  induction l₁ with
  | nil => simp [cbsOf]
  | cons a t ih => simp [cbsOf] at ih ⊢; simp [ih]

theorem olderNeighbor_append (newer : List Nat) (c : Nat) (older : List Nat)
    (h : c ∉ newer) : olderNeighbor (newer ++ c :: older) c = older.head? := by
  induction newer with
  | nil => simp [olderNeighbor]
  | cons a t ih =>
    have ha : a ≠ c := fun e => h (e ▸ List.mem_cons_self a t)
    have ht : c ∉ t := fun hc => h (List.mem_cons_of_mem a hc)
    simp [olderNeighbor, ha, ih ht]

theorem finishOp_startedEver (s : Tracker) (x : Nat) :
    (finishOp s x).startedEver = s.startedEver := by
  unfold finishOp
  split <;> split <;> rfl

theorem finishOp_ops (s : Tracker) (x : Nat) :
    (finishOp s x).ops = s.ops.erase x := by
  unfold finishOp
  split <;> split <;> rfl

/-! ## C2: finish_op hand-off -/

/-- C2: when `finish_op` runs on a started operation `x`, then: if `x` has an
immediate older started neighbour `y` and pending flush callbacks, the
callbacks are appended to `y`'s pending-flush queue and nothing is posted or
invoked; if no older neighbour exists, the pending callbacks (if any) are
posted as one consolidated `C_CompleteFlushes` completion whose execution
delivers each callback with success (result `0`) under the image's owner
lock held shared. -/
theorem finish_op_handoff (s : Tracker) (x : Nat) (hx : x ∈ s.ops) :
    (∀ y, olderNeighbor s.ops x = some y → s.fc x ≠ [] →
        stepO s (Ev.finish x) =
          some { s with ops := s.ops.erase x,
                        fc := updFc s.fc y (s.fc y ++ s.fc x) }) ∧
    (olderNeighbor s.ops x = none → s.fc x ≠ [] →
        stepO s (Ev.finish x) =
          some { s with ops := s.ops.erase x, fc := updFc s.fc x [],
                        posted := s.posted ++ [PostedItem.flushBatch (s.fc x) 0] } ∧
        deliverItem (PostedItem.flushBatch (s.fc x) 0) =
          (s.fc x).map (fun c => ⟨c, 0, true⟩)) := by
  constructor
  · intro y hy hfc
    simp [stepO, hx, finishOp, hy, hfc]
  · intro hy hfc
    exact ⟨by simp [stepO, hx, finishOp, hy, hfc], rfl⟩

/-- Witness for C2 on a concrete state: operation `5` (newest, pending flush
callback `9`) and operation `4` (older). -/
theorem finish_op_handoff_witness :
    (∀ y, olderNeighbor exTrackerTwo.ops 5 = some y → exTrackerTwo.fc 5 ≠ [] →
        stepO exTrackerTwo (Ev.finish 5) =
          some { exTrackerTwo with
                   ops := exTrackerTwo.ops.erase 5,
                   fc := updFc exTrackerTwo.fc y
                           (exTrackerTwo.fc y ++ exTrackerTwo.fc 5) }) ∧
    (olderNeighbor exTrackerTwo.ops 5 = none → exTrackerTwo.fc 5 ≠ [] →
        stepO exTrackerTwo (Ev.finish 5) =
          some { exTrackerTwo with
                   ops := exTrackerTwo.ops.erase 5,
                   fc := updFc exTrackerTwo.fc 5 [],
                   posted := exTrackerTwo.posted ++
                     [PostedItem.flushBatch (exTrackerTwo.fc 5) 0] } ∧
        deliverItem (PostedItem.flushBatch (exTrackerTwo.fc 5) 0) =
          (exTrackerTwo.fc 5).map (fun c => ⟨c, 0, true⟩)) :=
  finish_op_handoff exTrackerTwo 5 (by decide)

/-! ## C7: flush on the oldest operation is posted, never inline -/

/-- C7: `flush on_finish` on an operation with no older started neighbour
only appends a posted completion (result `0`) to the execution substrate's
queue — the tracker state is otherwise unchanged, nothing is delivered
during the call — and when the event loop later executes that completion it
delivers `on_finish` with success. -/
theorem flush_oldest_posted (s : Tracker) (x cb : Nat) (hx : x ∈ s.ops)
    (h : olderNeighbor s.ops x = none) :
    stepO s (Ev.flush x cb) =
      some { s with posted := s.posted ++ [PostedItem.single cb 0] } ∧
    deliverItem (PostedItem.single cb 0) = [⟨cb, 0, false⟩] :=
  ⟨by simp [stepO, hx, flushOn, h], rfl⟩

/-- Witness for C7: flushing callback `7` through the sole started operation
`0`. -/
theorem flush_oldest_posted_witness :
    stepO exTracker0 (Ev.flush 0 7) =
      some { exTracker0 with posted := exTracker0.posted ++ [PostedItem.single 7 0] } ∧
    deliverItem (PostedItem.single 7 0) = [⟨7, 0, false⟩] :=
  flush_oldest_posted exTracker0 0 7 (by decide) (by decide)

/-! ## C10: an AsyncOperation is single-use -/

/-- C10: after `start_op`, the operation is linked (so destroying it would be
a fatal assertion failure); `finish_op` never clears the image back-pointer,
so a second `start_op` — even after the operation has finished — is a fatal
assertion failure. -/
theorem async_op_single_use (s s₁ s₂ : Tracker) (o : Nat)
    (h1 : stepO s (Ev.start o) = some s₁)
    (h2 : stepO s₁ (Ev.finish o) = some s₂) :
    started s₁ o = true ∧ destroyAsserts s₁ o ∧
    s₂.startedEver = s₁.startedEver ∧ o ∈ s₂.startedEver ∧
    stepO s₂ (Ev.start o) = none := by
  simp only [stepO, startOp] at h1
  by_cases hs : o ∈ s.startedEver
  · simp [hs] at h1
  · rw [if_neg hs, Option.some_inj] at h1
    subst h1
    simp only [stepO] at h2
    by_cases ho : o ∈ ({ s with startedEver := o :: s.startedEver,
                                ops := o :: s.ops } : Tracker).ops
    · rw [if_pos ho, Option.some_inj] at h2
      subst h2
      refine ⟨by simp [started], List.mem_cons_self o s.ops, finishOp_startedEver _ _, ?_, ?_⟩
      · rw [finishOp_startedEver]
        exact List.mem_cons_self o s.startedEver
      · simp only [stepO, startOp, finishOp_startedEver]
        rw [if_pos (List.mem_cons_self o s.startedEver)]
    · exact absurd (List.mem_cons_self o s.ops) ho

/-- Witness for C10: start and finish operation `0` from the empty tracker,
then observe the second `start_op` is a fatal assertion failure. -/
theorem async_op_single_use_witness :
    started exStart0 0 = true ∧ destroyAsserts exStart0 0 ∧
    exFin0.startedEver = exStart0.startedEver ∧ 0 ∈ exFin0.startedEver ∧
    stepO exFin0 (Ev.start 0) = none :=
  async_op_single_use exEmpty exStart0 exFin0 0 rfl rfl

/-! ## C3: the clipping rule -/

/-- Counterexample to C3 as stated: a read request carrying
`READ_FLAG_DISABLE_CLIPPING` — which is neither a flush nor a
list-snapshots request — whose byte range lies beyond the image's current
extent (clipping would fail with `-EINVAL`) is passed through preprocessing
unchanged: it is neither clipped nor failed.  The clipping exemption applies
to reads with the disable-clipping flag, not to flushes. -/
theorem clip_claim_counterexample :
    exReadSpec.request ≠ Request.flush ∧
    exReadSpec.request ≠ Request.listSnaps ∧
    clip_request exCtx exReadSpec.imageExtents (selectArea exReadSpec) =
      Except.error EINVAL_ERR ∧
    preprocessVisit exCtx exReadSpec = (false, exReadSpec) ∧
    (preprocessVisit exCtx exReadSpec).2.result = none := by
  refine ⟨by decide, by decide, by rfl, by rfl, by rfl⟩

theorem preprocessVisit_clip_error (ctx : ImageCtx) (spec : ImageDispatchSpec)
    (r : Int) (hex : isClipExempt spec = false)
    (hclip : clip_request ctx spec.imageExtents (selectArea spec) = Except.error r) :
    preprocessVisit ctx spec = (true, fail spec r) := by
  cases hreq : spec.request with
  | read flags =>
    simp only [isClipExempt, hreq, decide_eq_false_iff_not, ne_eq, not_not] at hex
    simp [preprocessVisit, hreq, hex, clipRequestStep, hclip]
  | flush => simp [preprocessVisit, hreq, clipRequestStep, hclip]
  | listSnaps => simp [isClipExempt, hreq] at hex
  | write => simp [preprocessVisit, hreq, clipRequestStep, hclip]
  | discard => simp [preprocessVisit, hreq, clipRequestStep, hclip]
  | writeSame => simp [preprocessVisit, hreq, clipRequestStep, hclip]
  | compareAndWrite => simp [preprocessVisit, hreq, clipRequestStep, hclip]

theorem preprocessVisit_clip_ok (ctx : ImageCtx) (spec : ImageDispatchSpec)
    (exts : List Extent) (hex : isClipExempt spec = false)
    (hclip : clip_request ctx spec.imageExtents (selectArea spec) = Except.ok exts) :
    ((preprocessVisit ctx spec).2).imageExtents = exts := by
  cases hreq : spec.request with
  | read flags =>
    simp only [isClipExempt, hreq, decide_eq_false_iff_not, ne_eq, not_not] at hex
    simp [preprocessVisit, hreq, hex, clipRequestStep, hclip]
  | flush => simp [preprocessVisit, hreq, clipRequestStep, hclip]
  | listSnaps => simp [isClipExempt, hreq] at hex
  | write =>
    simp only [preprocessVisit, hreq, clipRequestStep, hclip]
    split <;> simp [fail]
  | discard =>
    simp only [preprocessVisit, hreq, clipRequestStep, hclip]
    split <;> simp [fail]
  | writeSame =>
    simp only [preprocessVisit, hreq, clipRequestStep, hclip]
    split <;> simp [fail]
  | compareAndWrite =>
    simp only [preprocessVisit, hreq, clipRequestStep, hclip]
    split <;> simp [fail]

theorem preprocessVisit_mut_ro (ctx : ImageCtx) (spec : ImageDispatchSpec)
    (exts : List Extent) (hmut : isMutating spec.request = true)
    (hclip : clip_request ctx spec.imageExtents (selectArea spec) = Except.ok exts)
    (hro : ctx.snapId ≠ CEPH_NOSNAP ∨ ctx.readOnly = true) :
    preprocessVisit ctx spec =
      (true, fail { spec with imageExtents := exts } EROFS_ERR) := by
  cases hreq : spec.request with
  | read flags => simp [isMutating, hreq] at hmut
  | flush => simp [isMutating, hreq] at hmut
  | listSnaps => simp [isMutating, hreq] at hmut
  | write =>
    simp only [preprocessVisit, hreq, clipRequestStep, hclip]
    rw [if_pos hro]
  | discard =>
    simp only [preprocessVisit, hreq, clipRequestStep, hclip]
    rw [if_pos hro]
  | writeSame =>
    simp only [preprocessVisit, hreq, clipRequestStep, hclip]
    rw [if_pos hro]
  | compareAndWrite =>
    simp only [preprocessVisit, hreq, clipRequestStep, hclip]
    rw [if_pos hro]

/-- C3 (amended): every request except a read with `READ_FLAG_DISABLE_CLIPPING`
and a list-snapshots request has its byte range clipped to the image's
current extent, in the address space selected by the request's
crypto-header flag; a clipping failure immediately fails the request with
the clipping error code, and `send_dispatch` then reports the request
handled without invoking any layer. -/
theorem clip_rule (ctx : ImageCtx) (spec : ImageDispatchSpec)
    (st : DispatcherState) (hex : isClipExempt spec = false) :
    (∀ r, clip_request ctx spec.imageExtents (selectArea spec) = Except.error r →
        preprocessVisit ctx spec = (true, fail spec r) ∧
        (spec.tid = 0 →
          (send_dispatch st ctx spec).2 =
            DispatchStep.handledByPreprocess
              (fail { spec with tid := assignedTid st } r))) ∧
    (∀ exts, clip_request ctx spec.imageExtents (selectArea spec) = Except.ok exts →
        ((preprocessVisit ctx spec).2).imageExtents = exts) := by
  constructor
  · intro r hclip
    refine ⟨preprocessVisit_clip_error ctx spec r hex hclip, fun h0 => ?_⟩
    have hpp := preprocessVisit_clip_error ctx { spec with tid := assignedTid st }
      r hex hclip
    simp [send_dispatch, h0, preprocess, hpp]
  · intro exts hclip
    exact preprocessVisit_clip_ok ctx spec exts hex hclip

/-- Witness for the amended C3: a plain (unflagged) out-of-range read on the
1024-byte image is failed with `-EINVAL` during preprocessing and never
reaches a layer. -/
theorem clip_rule_witness :
    (∀ r, clip_request exCtx exPlainReadSpec.imageExtents (selectArea exPlainReadSpec) =
          Except.error r →
        preprocessVisit exCtx exPlainReadSpec = (true, fail exPlainReadSpec r) ∧
        (exPlainReadSpec.tid = 0 →
          (send_dispatch ⟨0⟩ exCtx exPlainReadSpec).2 =
            DispatchStep.handledByPreprocess
              (fail { exPlainReadSpec with tid := assignedTid ⟨0⟩ } r))) ∧
    (∀ exts, clip_request exCtx exPlainReadSpec.imageExtents (selectArea exPlainReadSpec) =
          Except.ok exts →
        ((preprocessVisit exCtx exPlainReadSpec).2).imageExtents = exts) :=
  clip_rule exCtx exPlainReadSpec ⟨0⟩ (by decide)

/-! ## C4: read-only rejection -/

/-- C4: a mutating request (not read, not flush, not list-snapshots) whose
clipping succeeds, on an image pinned to a historical snapshot or marked
read-only, is failed with `-EROFS` by preprocessing, and `send_dispatch`
reports it handled without invoking any layer handler. -/
theorem readonly_rejection (ctx : ImageCtx) (spec : ImageDispatchSpec)
    (st : DispatcherState) (exts : List Extent)
    (hmut : isMutating spec.request = true)
    (hclip : clip_request ctx spec.imageExtents (selectArea spec) = Except.ok exts)
    (hro : ctx.snapId ≠ CEPH_NOSNAP ∨ ctx.readOnly = true) :
    preprocessVisit ctx spec =
      (true, fail { spec with imageExtents := exts } EROFS_ERR) ∧
    (spec.tid = 0 →
      (send_dispatch st ctx spec).2 =
        DispatchStep.handledByPreprocess
          (fail { spec with tid := assignedTid st, imageExtents := exts }
            EROFS_ERR)) := by
  refine ⟨preprocessVisit_mut_ro ctx spec exts hmut hclip hro, fun h0 => ?_⟩
  have hpp := preprocessVisit_mut_ro ctx { spec with tid := assignedTid st }
    exts hmut hclip hro
  simp [send_dispatch, h0, preprocess, hpp]

/-- Witness for C4: an in-bounds write on the read-only 1024-byte image is
failed with `-EROFS` during preprocessing. -/
theorem readonly_rejection_witness :
    preprocessVisit exCtxRO exWriteSpec =
      (true, fail { exWriteSpec with imageExtents := [⟨0, 10⟩] } EROFS_ERR) ∧
    (exWriteSpec.tid = 0 →
      (send_dispatch ⟨0⟩ exCtxRO exWriteSpec).2 =
        DispatchStep.handledByPreprocess
          (fail { exWriteSpec with tid := assignedTid ⟨0⟩, imageExtents := [⟨0, 10⟩] }
            EROFS_ERR)) :=
  readonly_rejection exCtxRO exWriteSpec ⟨0⟩ [⟨0, 10⟩] (by decide) (by rfl)
    (Or.inr rfl)

/-! ## C6: preprocessing runs at most once per request -/

/-- C6: invoking `send_dispatch` on a request whose tid is already non-zero
neither re-runs preprocessing nor touches the tid counter: the dispatcher
state is returned unchanged and the request is routed to the layer exactly
as it came in (extents, flags and completion state untouched). -/
theorem preprocess_not_rerun (st : DispatcherState) (ctx : ImageCtx)
    (spec : ImageDispatchSpec) (h : spec.tid ≠ 0) :
    send_dispatch st ctx spec = (st, DispatchStep.toLayer spec) := by
  simp [send_dispatch, h]

/-- Witness for C6: re-dispatching a request that already carries tid `1`
leaves the dispatcher state and the request untouched. -/
theorem preprocess_not_rerun_witness :
    send_dispatch ⟨0⟩ exCtx exTidSpec = (⟨0⟩, DispatchStep.toLayer exTidSpec) :=
  preprocess_not_rerun ⟨0⟩ exCtx exTidSpec (by decide)

/-! ## C8: layer registration order versus processing order -/

/-- Counterexample to C8 as stated: the constructor registers the core layer
first (before the queue layer), so if insertion order were the processing
precedence the core layer would see every request first and could not be the
terminal stage; in fact the processing order puts the queue layer first and
the core layer last, and differs from the registration order. -/
theorem layer_order_counterexample :
    registrationOrder.head? = some Layer.core ∧
    registrationOrder.indexOf Layer.core < registrationOrder.indexOf Layer.queue ∧
    processingOrder.indexOf Layer.queue < processingOrder.indexOf Layer.core ∧
    processingOrder ≠ registrationOrder ∧
    registrationOrder.getLast? = some Layer.writeBlock := by
  decide

/-- C8 (amended): the layers are registered once, at construction; the
processing precedence is the ascending layer-ordinal order — queue, qos,
refresh, write-block, core — which is a permutation of the registration
order, strictly sorted by ordinal, with the core layer as the terminal
stage. -/
theorem layer_order_amended :
    processingOrder =
      [Layer.queue, Layer.qos, Layer.refresh, Layer.writeBlock, Layer.core] ∧
    processingOrder.getLast? = some Layer.core ∧
    List.Pairwise (fun a b => layerOrdinal a < layerOrdinal b) processingOrder ∧
    processingOrder.Perm registrationOrder := by
  decide

/-! ## C9: shutdown sequencing -/

/-- Counterexample to C9 as stated: the shutdown path contains no cache
invalidation at all — its first action is starting the throwaway operation,
and `invalidateCache` occurs nowhere in the shutdown action sequence. -/
theorem shutdown_no_invalidate :
    ShutdownAction.invalidateCache ∉ shutDownActions ∧
    shutDownActions.head? = some ShutdownAction.startThrowawayOp := by
  decide

/-! ## Barrier invariant preservation -/

theorem olderNeighbor_mem (l : List Nat) (x y : Nat)
    (h : olderNeighbor l x = some y) : y ∈ l := by
  induction l with
  | nil => simp [olderNeighbor] at h
  | cons a rest ih =>
    by_cases hax : a = x
    · simp only [olderNeighbor, if_pos hax] at h
      exact List.mem_cons_of_mem a (List.mem_of_mem_head? (h ▸ rfl))
    · simp only [olderNeighbor, if_neg hax] at h
      exact List.mem_cons_of_mem a (ih h)

theorem barrierInv_start (P : List Nat) (cb : Nat) (s s' : Tracker) (o : Nat)
    (hInv : BarrierInv P cb s) (h : startOp s o = some s') :
    BarrierInv P cb s' := by
  obtain ⟨hnd, hopsSt, hpSt, hmain⟩ := hInv
  unfold startOp at h
  by_cases hs : o ∈ s.startedEver
  · simp [hs] at h
  · rw [if_neg hs, Option.some_inj] at h
    subst h
    have hno : o ∉ s.ops := fun hmem => hs (hopsSt o hmem)
    refine ⟨List.nodup_cons.mpr ⟨hno, hnd⟩, ?_, ?_, ?_⟩
    · intro p hp
      rcases List.mem_cons.mp hp with rfl | hp'
      · exact List.mem_cons_self _ _
      · exact List.mem_cons_of_mem _ (hopsSt p hp')
    · intro p hp
      exact List.mem_cons_of_mem _ (hpSt p hp)
    · rcases hmain with
        ⟨newer, c, older, hdec, hcP, holdP, hPin, hcbin, huniq, hfresh, hnpost⟩ |
        ⟨hpost, hnp⟩
      · left
        refine ⟨o :: newer, c, older, by simp [hdec], hcP, holdP, ?_, hcbin, ?_, ?_, hnpost⟩
        · intro p hp hps
          rcases List.mem_cons.mp hps with rfl | hp'
          · exact absurd (hpSt p hp) hs
          · exact hPin p hp hp'
        · intro q hq hqc
          rcases List.mem_cons.mp hq with rfl | hq'
          · exact hfresh q hs
          · exact huniq q hq' hqc
        · intro q hq
          exact hfresh q (fun hmem => hq (List.mem_cons_of_mem _ hmem))
      · right
        refine ⟨hpost, ?_⟩
        intro p hp hpm
        rcases List.mem_cons.mp hpm with rfl | hp'
        · exact hs (hpSt p hp)
        · exact hnp p hp hp'

theorem barrierInv_flush (P : List Nat) (cb : Nat) (s : Tracker) (x cb' : Nat)
    (hInv : BarrierInv P cb s) (hne : cb' ≠ cb) :
    BarrierInv P cb (flushOn s x cb') := by
  obtain ⟨hnd, hopsSt, hpSt, hmain⟩ := hInv
  cases hy : olderNeighbor s.ops x with
  | some y =>
    have hyops : y ∈ s.ops := olderNeighbor_mem _ _ _ hy
    have hfo : flushOn s x cb' = { s with fc := updFc s.fc y (s.fc y ++ [cb']) } := by
      simp [flushOn, hy]
    rw [hfo]
    refine ⟨hnd, hopsSt, hpSt, ?_⟩
    rcases hmain with
      ⟨newer, c, older, hdec, hcP, holdP, hPin, hcbin, huniq, hfresh, hnpost⟩ |
      ⟨hpost, hnp⟩
    · left
      refine ⟨newer, c, older, hdec, hcP, holdP, hPin, ?_, ?_, ?_, hnpost⟩
      · by_cases hcy : c = y
        · subst hcy
          simp only [updFc, if_pos rfl]
          exact List.mem_append_left _ hcbin
        · simpa only [updFc, if_neg hcy] using hcbin
      · intro q hq hqc
        by_cases hqy : q = y
        · subst hqy
          simp only [updFc, if_pos rfl]
          intro hmem
          rcases List.mem_append.mp hmem with hmem' | hmem'
          · exact huniq q hq hqc hmem'
          · exact hne (List.mem_singleton.mp hmem').symm
        · simpa only [updFc, if_neg hqy] using huniq q hq hqc
      · intro q hq
        have hqy : q ≠ y := fun e => hq (e ▸ hopsSt y hyops)
        simpa only [updFc, if_neg hqy] using hfresh q hq
    · exact Or.inr ⟨hpost, hnp⟩
  | none =>
    have hfo : flushOn s x cb' = { s with posted := s.posted ++ [.single cb' 0] } := by
      simp [flushOn, hy]
    rw [hfo]
    refine ⟨hnd, hopsSt, hpSt, ?_⟩
    rcases hmain with
      ⟨newer, c, older, hdec, hcP, holdP, hPin, hcbin, huniq, hfresh, hnpost⟩ |
      ⟨hpost, hnp⟩
    · left
      refine ⟨newer, c, older, hdec, hcP, holdP, hPin, hcbin, huniq, hfresh, ?_⟩
      show cb ∉ cbsOf (s.posted ++ [PostedItem.single cb' 0])
      rw [cbsOf_append]
      intro hmem
      rcases List.mem_append.mp hmem with hmem' | hmem'
      · exact hnpost hmem'
      · simp [cbsOf, PostedItem.cbs] at hmem'
        exact hne hmem'.symm
    · refine Or.inr ⟨?_, hnp⟩
      show cb ∈ cbsOf (s.posted ++ [PostedItem.single cb' 0])
      rw [cbsOf_append]
      exact List.mem_append_left _ hpost

theorem finishOp_posted_mono (s : Tracker) (x c : Nat) (hc : c ∈ postedCbs s) :
    c ∈ postedCbs (finishOp s x) := by
  unfold finishOp
  split
  · split
    · exact hc
    · exact hc
  · split
    · exact hc
    · show c ∈ cbsOf (s.posted ++ [PostedItem.flushBatch (s.fc x) 0])
      rw [cbsOf_append]
      exact List.mem_append_left _ hc

theorem barrierInv_finish (P : List Nat) (cb : Nat) (s : Tracker) (x : Nat)
    (hInv : BarrierInv P cb s) (hx : x ∈ s.ops) :
    BarrierInv P cb (finishOp s x) := by
  obtain ⟨hnd, hopsSt, hpSt, hmain⟩ := hInv
  have hndE : (s.ops.erase x).Nodup := hnd.erase x
  have hsubE : s.ops.erase x ⊆ s.ops := List.erase_subset x s.ops
  have hops' : (finishOp s x).ops = s.ops.erase x := finishOp_ops s x
  have hse : (finishOp s x).startedEver = s.startedEver := finishOp_startedEver s x
  refine ⟨by rw [hops']; exact hndE, ?_, ?_, ?_⟩
  · intro o ho
    rw [hops'] at ho
    rw [hse]
    exact hopsSt o (hsubE ho)
  · intro p hp
    rw [hse]
    exact hpSt p hp
  · rcases hmain with
      ⟨newer, c, older, hdec, hcP, holdP, hPin, hcbin, huniq, hfresh, hnpost⟩ |
      ⟨hpost, hnp⟩
    · have hndA : (newer ++ c :: older).Nodup := hdec ▸ hnd
      have hdisj := List.disjoint_of_nodup_append hndA
      have hcnotn : c ∉ newer := fun hmem => hdisj hmem (List.mem_cons_self _ _)
      by_cases hxc : x = c
      · -- the operation carrying `cb` finishes
        subst hxc
        have hone : olderNeighbor s.ops x = older.head? := by
          rw [hdec]; exact olderNeighbor_append newer x older hcnotn
        have hfcx : s.fc x ≠ [] := List.ne_nil_of_mem hcbin
        have herase : s.ops.erase x = newer ++ older := by
          rw [hdec, List.erase_append_right _ hcnotn, List.erase_cons_head]
        cases older with
        | nil =>
          have hone' : olderNeighbor s.ops x = none := by rw [hone]; rfl
          have hfo : finishOp s x =
              { s with ops := s.ops.erase x, fc := updFc s.fc x [],
                       posted := s.posted ++ [.flushBatch (s.fc x) 0] } := by
            simp [finishOp, hone', hfcx]
          rw [hfo]
          right
          constructor
          · show cb ∈ cbsOf (s.posted ++ [PostedItem.flushBatch (s.fc x) 0])
            rw [cbsOf_append]
            refine List.mem_append_right _ ?_
            simpa [cbsOf, PostedItem.cbs] using hcbin
          · intro p hp hpm
            have hpm' : p ∈ s.ops.erase x := hpm
            have hcons := hnd.mem_erase_iff.mp hpm'
            have hpc := hPin p hp hcons.2
            rcases List.mem_cons.mp hpc with rfl | h0
            · exact hcons.1 rfl
            · exact absurd h0 (List.not_mem_nil p)
        | cons h0 t =>
          have hone' : olderNeighbor s.ops x = some h0 := by rw [hone]; rfl
          have hfo : finishOp s x =
              { s with ops := s.ops.erase x,
                       fc := updFc s.fc h0 (s.fc h0 ++ s.fc x) } := by
            simp [finishOp, hone', hfcx]
          rw [hfo]
          left
          have hh0P : h0 ∈ P := holdP h0 (List.mem_cons_self _ _)
          have hh0ops : h0 ∈ s.ops := by
            rw [hdec]
            exact List.mem_append_right _ (List.mem_cons_of_mem _ (List.mem_cons_self _ _))
          refine ⟨newer, h0, t, ?_, hh0P, ?_, ?_, ?_, ?_, ?_, hnpost⟩
          · show s.ops.erase x = newer ++ h0 :: t
            rw [herase]
          · intro p hp
            exact holdP p (List.mem_cons_of_mem _ hp)
          · intro p hp hpm
            have hpm' : p ∈ s.ops.erase x := hpm
            have hcons := hnd.mem_erase_iff.mp hpm'
            have hpc := hPin p hp hcons.2
            rcases List.mem_cons.mp hpc with rfl | h1
            · exact absurd rfl hcons.1
            · exact h1
          · show cb ∈ updFc s.fc h0 (s.fc h0 ++ s.fc x) h0
            simp only [updFc, if_pos rfl]
            exact List.mem_append_right _ hcbin
          · intro q hq hqh
            have hq' : q ∈ s.ops.erase x := hq
            have hcons := hnd.mem_erase_iff.mp hq'
            show cb ∉ updFc s.fc h0 (s.fc h0 ++ s.fc x) q
            simp only [updFc, if_neg hqh]
            exact huniq q hcons.2 hcons.1
          · intro q hq
            have hqh : q ≠ h0 := fun e => hq (e ▸ hopsSt h0 hh0ops)
            show cb ∉ updFc s.fc h0 (s.fc h0 ++ s.fc x) q
            simp only [updFc, if_neg hqh]
            exact hfresh q hq
      · -- a non-carrier operation finishes
        have hxco : x ∈ newer ∨ x ∈ older := by
          have hx' := hx
          rw [hdec] at hx'
          rcases List.mem_append.mp hx' with h | h
          · exact Or.inl h
          · rcases List.mem_cons.mp h with h' | h'
            · exact absurd h' hxc
            · exact Or.inr h'
        have hcbfx : cb ∉ s.fc x := huniq x hx hxc
        obtain ⟨newer', older', hdec', holdP', hPinE⟩ :
            ∃ n' o', s.ops.erase x = n' ++ c :: o' ∧ (∀ p ∈ o', p ∈ P) ∧
              (∀ p ∈ P, p ∈ s.ops.erase x → p ∈ c :: o') := by
          rcases hxco with hxn | hxo
          · refine ⟨newer.erase x, older, ?_, holdP, ?_⟩
            · rw [hdec, List.erase_append_left _ hxn]
            · intro p hp hpm
              exact hPin p hp (hsubE hpm)
          · have hxnotn : x ∉ newer := fun hmem =>
              hdisj hmem (List.mem_cons_of_mem _ hxo)
            have hndold : older.Nodup := (hndA.of_append_right).of_cons
            have hcx : c ≠ x := Ne.symm hxc
            refine ⟨newer, older.erase x, ?_, ?_, ?_⟩
            · rw [hdec, List.erase_append_right _ hxnotn,
                List.erase_cons_tail (by simp [hcx])]
            · intro p hp
              exact holdP p (List.erase_subset x older hp)
            · intro p hp hpm
              have hcons := hnd.mem_erase_iff.mp hpm
              have hpc := hPin p hp hcons.2
              rcases List.mem_cons.mp hpc with rfl | h1
              · exact List.mem_cons_self _ _
              · exact List.mem_cons_of_mem _ (hndold.mem_erase_iff.mpr ⟨hcons.1, h1⟩)
        cases hyy : olderNeighbor s.ops x with
        | some y =>
          have hyops : y ∈ s.ops := olderNeighbor_mem _ _ _ hyy
          by_cases hfc : s.fc x = []
          · have hfo : finishOp s x = { s with ops := s.ops.erase x } := by
              simp [finishOp, hyy, hfc]
            rw [hfo]
            left
            refine ⟨newer', c, older', hdec', hcP, holdP', hPinE, hcbin, ?_, hfresh, hnpost⟩
            intro q hq hqc
            have hq' : q ∈ s.ops.erase x := hq
            exact huniq q (hsubE hq') hqc
          · have hfo : finishOp s x =
                { s with ops := s.ops.erase x,
                         fc := updFc s.fc y (s.fc y ++ s.fc x) } := by
              simp [finishOp, hyy, hfc]
            rw [hfo]
            left
            refine ⟨newer', c, older', hdec', hcP, holdP', hPinE, ?_, ?_, ?_, hnpost⟩
            · show cb ∈ updFc s.fc y (s.fc y ++ s.fc x) c
              by_cases hcy : c = y
              · subst hcy
                simp only [updFc, if_pos rfl]
                exact List.mem_append_left _ hcbin
              · simpa only [updFc, if_neg hcy] using hcbin
            · intro q hq hqc
              have hq' : q ∈ s.ops.erase x := hq
              show cb ∉ updFc s.fc y (s.fc y ++ s.fc x) q
              by_cases hqy : q = y
              · subst hqy
                simp only [updFc, if_pos rfl]
                intro hmem
                rcases List.mem_append.mp hmem with hmem' | hmem'
                · exact huniq q hyops hqc hmem'
                · exact hcbfx hmem'
              · simpa only [updFc, if_neg hqy] using huniq q (hsubE hq') hqc
            · intro q hq
              have hqy : q ≠ y := fun e => hq (e ▸ hopsSt y hyops)
              show cb ∉ updFc s.fc y (s.fc y ++ s.fc x) q
              simpa only [updFc, if_neg hqy] using hfresh q hq
        | none =>
          by_cases hfc : s.fc x = []
          · have hfo : finishOp s x = { s with ops := s.ops.erase x } := by
              simp [finishOp, hyy, hfc]
            rw [hfo]
            left
            refine ⟨newer', c, older', hdec', hcP, holdP', hPinE, hcbin, ?_, hfresh, hnpost⟩
            intro q hq hqc
            have hq' : q ∈ s.ops.erase x := hq
            exact huniq q (hsubE hq') hqc
          · have hfo : finishOp s x =
                { s with ops := s.ops.erase x, fc := updFc s.fc x [],
                         posted := s.posted ++ [.flushBatch (s.fc x) 0] } := by
              simp [finishOp, hyy, hfc]
            rw [hfo]
            left
            have hcx : c ≠ x := Ne.symm hxc
            refine ⟨newer', c, older', hdec', hcP, holdP', hPinE, ?_, ?_, ?_, ?_⟩
            · show cb ∈ updFc s.fc x [] c
              simpa only [updFc, if_neg hcx] using hcbin
            · intro q hq hqc
              have hq' : q ∈ s.ops.erase x := hq
              have hcons := hnd.mem_erase_iff.mp hq'
              show cb ∉ updFc s.fc x [] q
              simpa only [updFc, if_neg hcons.1] using huniq q hcons.2 hqc
            · intro q hq
              have hqx : q ≠ x := fun e => hq (e ▸ hopsSt x hx)
              show cb ∉ updFc s.fc x [] q
              simpa only [updFc, if_neg hqx] using hfresh q hq
            · show cb ∉ cbsOf (s.posted ++ [PostedItem.flushBatch (s.fc x) 0])
              rw [cbsOf_append]
              intro hmem
              rcases List.mem_append.mp hmem with hmem' | hmem'
              · exact hnpost hmem'
              · refine hcbfx ?_
                simpa [cbsOf, PostedItem.cbs] using hmem'
    · right
      refine ⟨finishOp_posted_mono s x cb hpost, ?_⟩
      intro p hp hpm
      rw [hops'] at hpm
      exact hnp p hp (hsubE hpm)

theorem barrierInv_step (P : List Nat) (cb : Nat) (s s' : Tracker) (e : Ev)
    (hInv : BarrierInv P cb s) (h : stepO s e = some s')
    (hnocb : ∀ x, e ≠ Ev.flush x cb) : BarrierInv P cb s' := by
  cases e with
  | start o => exact barrierInv_start P cb s s' o hInv h
  | finish x =>
    simp only [stepO] at h
    by_cases hx : x ∈ s.ops
    · rw [if_pos hx, Option.some_inj] at h
      exact h ▸ barrierInv_finish P cb s x hInv hx
    · rw [if_neg hx] at h
      exact absurd h (by simp)
  | flush x cb' =>
    simp only [stepO] at h
    by_cases hx : x ∈ s.ops
    · rw [if_pos hx, Option.some_inj] at h
      have hne : cb' ≠ cb := fun e => (hnocb x) (by rw [e])
      exact h ▸ barrierInv_flush P cb s x cb' hInv hne
    · rw [if_neg hx] at h
      exact absurd h (by simp)

theorem barrierInv_run (P : List Nat) (cb : Nat) :
    ∀ (evs : List Ev) (s s' : Tracker), BarrierInv P cb s →
      runO s evs = some s' → (∀ x, Ev.flush x cb ∉ evs) →
      BarrierInv P cb s' := by
  intro evs
  induction evs with
  | nil =>
    intro s s' hInv h _
    simp only [runO, Option.some_inj] at h
    exact h ▸ hInv
  | cons e rest ih =>
    intro s s' hInv h hnocb
    simp only [runO] at h
    cases hst : stepO s e with
    | none => rw [hst] at h; exact absurd h (by simp)
    | some s₁ =>
      rw [hst] at h
      have hInv₁ := barrierInv_step P cb s s₁ e hInv hst
        (fun x he => hnocb x (he ▸ List.mem_cons_self _ _))
      exact ih s₁ s' hInv₁ h
        (fun x hmem => hnocb x (List.mem_cons_of_mem _ hmem))

theorem barrierInv_attach (s s₁ : Tracker) (F cb : Nat)
    (hwf : WFTracker s) (hF : F ∉ s.startedEver)
    (hcb : ∀ o, cb ∉ s.fc o) (hcb2 : cb ∉ postedCbs s)
    (hattach : runO s [Ev.start F, Ev.flush F cb] = some s₁) :
    BarrierInv s.ops cb s₁ := by
  obtain ⟨se, ops, fcm, post, del⟩ := s
  obtain ⟨hnd, hopsSt⟩ := hwf
  have hF' : F ∉ se := hF
  have hcb' : ∀ o, cb ∉ fcm o := hcb
  have hcb2' : cb ∉ cbsOf post := hcb2
  cases ops with
  | nil =>
    have h1 : stepO ⟨se, [], fcm, post, del⟩ (Ev.start F) =
        some ⟨F :: se, [F], fcm, post, del⟩ := by
      simp [stepO, startOp, hF']
    have h2 : stepO (⟨F :: se, [F], fcm, post, del⟩ : Tracker) (Ev.flush F cb) =
        some ⟨F :: se, [F], fcm, post ++ [.single cb 0], del⟩ := by
      simp [stepO, flushOn, olderNeighbor]
    simp only [runO, h1, h2, Option.some_inj] at hattach
    subst hattach
    refine ⟨by simp, ?_, ?_, Or.inr ⟨?_, ?_⟩⟩
    · intro o ho
      rcases List.mem_cons.mp ho with rfl | ho'
      · exact List.mem_cons_self _ _
      · exact absurd ho' (List.not_mem_nil o)
    · intro p hp
      exact absurd hp (List.not_mem_nil p)
    · show cb ∈ cbsOf (post ++ [PostedItem.single cb 0])
      rw [cbsOf_append]
      refine List.mem_append_right _ ?_
      simp [cbsOf, PostedItem.cbs]
    · intro p hp
      exact absurd hp (List.not_mem_nil p)
  | cons h0 t =>
    have hnd' : (h0 :: t).Nodup := hnd
    have hopsSt' : ∀ o ∈ h0 :: t, o ∈ se := hopsSt
    have hFops : F ∉ h0 :: t := fun hmem => hF' (hopsSt' F hmem)
    have h1 : stepO ⟨se, h0 :: t, fcm, post, del⟩ (Ev.start F) =
        some ⟨F :: se, F :: h0 :: t, fcm, post, del⟩ := by
      simp [stepO, startOp, hF']
    have h2 : stepO (⟨F :: se, F :: h0 :: t, fcm, post, del⟩ : Tracker)
        (Ev.flush F cb) =
        some ⟨F :: se, F :: h0 :: t, updFc fcm h0 (fcm h0 ++ [cb]), post, del⟩ := by
      have hne : olderNeighbor (F :: h0 :: t) F = some h0 := by
        simp [olderNeighbor]
      simp [stepO, flushOn, hne]
    simp only [runO, h1, h2, Option.some_inj] at hattach
    subst hattach
    refine ⟨List.nodup_cons.mpr ⟨hFops, hnd'⟩, ?_, ?_, Or.inl ?_⟩
    · intro o ho
      rcases List.mem_cons.mp ho with rfl | ho'
      · exact List.mem_cons_self _ _
      · exact List.mem_cons_of_mem _ (hopsSt' o ho')
    · intro p hp
      exact List.mem_cons_of_mem _ (hopsSt' p hp)
    · refine ⟨[F], h0, t, rfl, List.mem_cons_self _ _,
        fun p hp => List.mem_cons_of_mem _ hp, fun p hp _ => hp, ?_, ?_, ?_, hcb2'⟩
      · show cb ∈ updFc fcm h0 (fcm h0 ++ [cb]) h0
        simp only [updFc, if_pos rfl]
        exact List.mem_append_right _ (List.mem_singleton.mpr rfl)
      · intro q hq hqh
        show cb ∉ updFc fcm h0 (fcm h0 ++ [cb]) q
        simp only [updFc, if_neg hqh]
        exact hcb' q
      · intro q hq
        have hqh : q ≠ h0 := fun e => hq (by
          rw [e]
          exact List.mem_cons_of_mem _ (hopsSt' h0 (List.mem_cons_self _ _)))
        show cb ∉ updFc fcm h0 (fcm h0 ++ [cb]) q
        simp only [updFc, if_neg hqh]
        exact hcb' q

theorem barrier_of_inv (P : List Nat) (cb : Nat) (s : Tracker)
    (hInv : BarrierInv P cb s) :
    (cb ∈ postedCbs s ↔ ∀ p ∈ P, p ∉ s.ops) := by
  obtain ⟨-, -, -, hmain⟩ := hInv
  rcases hmain with
    ⟨newer, c, older, hdec, hcP, -, -, -, -, -, hnpost⟩ | ⟨hpost, hnp⟩
  · constructor
    · intro h; exact absurd h hnpost
    · intro h
      refine absurd ?_ (h c hcP)
      rw [hdec]
      exact List.mem_append_right _ (List.mem_cons_self _ _)
  · exact ⟨fun _ => hnp, fun _ => hpost⟩

/-! ## C1: flush barrier correctness -/

/-- C1: attach a flush callback `cb` at a point where the in-flight
operations of the image are `s.ops` (newest first) — concretely, start a
fresh operation `F` and call `flush cb` through it, exactly as the flush
path does.  Then, after any further well-formed sequence of events
(starting fresh operations, finishing in-flight ones in any order, and
attaching other flush callbacks), `cb` has been handed to the execution
substrate if and only if every operation that was in flight at the attach
point has finished.  In particular `cb` never completes while the
most-recently-started operation of the attach point is still in flight, and
it is posted as soon as the last of those operations finishes, regardless
of the fates of operations started later. -/
theorem flush_barrier_correct (s s₁ s₂ : Tracker) (F cb : Nat) (evs : List Ev)
    (hwf : WFTracker s) (hF : F ∉ s.startedEver)
    (hcb : ∀ o, cb ∉ s.fc o) (hcb2 : cb ∉ postedCbs s)
    (hattach : runO s [Ev.start F, Ev.flush F cb] = some s₁)
    (hrun : runO s₁ evs = some s₂)
    (hnocb : ∀ x, Ev.flush x cb ∉ evs) :
    (cb ∈ postedCbs s₂ ↔ ∀ p ∈ s.ops, p ∉ s₂.ops) :=
  barrier_of_inv s.ops cb s₂
    (barrierInv_run s.ops cb evs s₁ s₂
      (barrierInv_attach s s₁ F cb hwf hF hcb hcb2 hattach) hrun hnocb)

/-- Witness for C1 (concrete scenario 2 of the spec): operation `0` is in
flight, callback `2` is attached through fresh operation `1`, then
operation `0` finishes; the callback is posted exactly then. -/
theorem flush_barrier_correct_witness :
    (2 ∈ postedCbs exTracker2 ↔ ∀ p ∈ exTracker0.ops, p ∉ exTracker2.ops) :=
  flush_barrier_correct exTracker0 exTracker1 exTracker2 1 2 [Ev.finish 0]
    ⟨by decide, by decide⟩ (by decide) (fun o => List.not_mem_nil 2) (by decide)
    rfl rfl
    (by intro x h; simp at h)

/-! ## C5: tid assignment and monotonicity -/

theorem clipRequestStep_tid (ctx : ImageCtx) (spec : ImageDispatchSpec) :
    ((clipRequestStep ctx spec).2).tid = spec.tid := by
  unfold clipRequestStep
  cases clip_request ctx spec.imageExtents (selectArea spec) <;> simp [fail]

theorem preprocessVisit_tid (ctx : ImageCtx) (spec : ImageDispatchSpec) :
    ((preprocessVisit ctx spec).2).tid = spec.tid := by
  have ht := clipRequestStep_tid ctx spec
  cases hreq : spec.request with
  | read flags =>
    simp only [preprocessVisit, hreq]
    split
    · rfl
    · exact ht
  | flush =>
    simp only [preprocessVisit, hreq]
    exact ht
  | listSnaps => simp [preprocessVisit, hreq]
  | write =>
    simp only [preprocessVisit, hreq]
    cases hcs : clipRequestStep ctx spec with
    | mk b spec' =>
      rw [hcs] at ht
      cases b with
      | true => exact ht
      | false =>
        dsimp only
        split
        · simpa [fail] using ht
        · exact ht
  | discard =>
    simp only [preprocessVisit, hreq]
    cases hcs : clipRequestStep ctx spec with
    | mk b spec' =>
      rw [hcs] at ht
      cases b with
      | true => exact ht
      | false =>
        dsimp only
        split
        · simpa [fail] using ht
        · exact ht
  | writeSame =>
    simp only [preprocessVisit, hreq]
    cases hcs : clipRequestStep ctx spec with
    | mk b spec' =>
      rw [hcs] at ht
      cases b with
      | true => exact ht
      | false =>
        dsimp only
        split
        · simpa [fail] using ht
        · exact ht
  | compareAndWrite =>
    simp only [preprocessVisit, hreq]
    cases hcs : clipRequestStep ctx spec with
    | mk b spec' =>
      rw [hcs] at ht
      cases b with
      | true => exact ht
      | false =>
        dsimp only
        split
        · simpa [fail] using ht
        · exact ht

theorem send_dispatch_fresh (st : DispatcherState) (ctx : ImageCtx)
    (spec : ImageDispatchSpec) (h : spec.tid = 0) :
    (send_dispatch st ctx spec).1 = { nextTid := assignedTid st } ∧
    ((send_dispatch st ctx spec).2).spec.tid = assignedTid st := by
  have ht := preprocessVisit_tid ctx { spec with tid := assignedTid st }
  unfold send_dispatch
  rw [if_pos h]
  dsimp only
  cases hp : preprocess ctx { spec with tid := assignedTid st } with
  | mk b spec'' =>
    have ht' : spec''.tid = assignedTid st := by
      unfold preprocess at hp
      rw [hp] at ht
      exact ht
    cases b with
    | true => exact ⟨rfl, ht'⟩
    | false => exact ⟨rfl, ht'⟩

theorem dispatchAll_spec (ctx : ImageCtx) :
    ∀ (specs : List ImageDispatchSpec) (st : DispatcherState),
      (∀ sp ∈ specs, sp.tid = 0) → st.nextTid + specs.length < 2 ^ 64 →
      (dispatchAll ctx st specs).2.map ImageDispatchSpec.tid =
        (List.range specs.length).map (fun i => st.nextTid + i + 1) ∧
      ((dispatchAll ctx st specs).1).nextTid = st.nextTid + specs.length := by
  intro specs
  induction specs with
  | nil => intro st _ _; exact ⟨rfl, rfl⟩
  | cons sp rest ih =>
    intro st hall hb
    have h0 : sp.tid = 0 := hall sp (List.mem_cons_self _ _)
    have hlen : (sp :: rest).length = rest.length + 1 := List.length_cons _ _
    have hlt : st.nextTid + 1 < 2 ^ 64 := by
      rw [hlen] at hb; omega
    have hasg : assignedTid st = st.nextTid + 1 := Nat.mod_eq_of_lt hlt
    obtain ⟨hsd1, hsd2⟩ := send_dispatch_fresh st ctx sp h0
    have hb' : ({ nextTid := st.nextTid + 1 } : DispatcherState).nextTid
        + rest.length < 2 ^ 64 := by
      show st.nextTid + 1 + rest.length < 2 ^ 64
      rw [hlen] at hb; omega
    obtain ⟨ih1, ih2⟩ := ih { nextTid := st.nextTid + 1 }
      (fun q hq => hall q (List.mem_cons_of_mem _ hq)) hb'
    have hqeq : dispatchAll ctx (send_dispatch st ctx sp).1 rest =
        dispatchAll ctx { nextTid := st.nextTid + 1 } rest := by
      rw [hsd1, hasg]
    constructor
    · show ((send_dispatch st ctx sp).2.spec ::
          (dispatchAll ctx (send_dispatch st ctx sp).1 rest).2).map
            ImageDispatchSpec.tid =
        (List.range (sp :: rest).length).map (fun i => st.nextTid + i + 1)
      rw [List.map_cons, hqeq, ih1, hsd2, hasg, hlen,
        List.range_succ_eq_map, List.map_cons, List.map_map]
      rw [List.cons_eq_cons]
      refine ⟨by omega, ?_⟩
      apply List.map_congr_left
      intro a _
      simp only [Function.comp]
      omega
    · show (dispatchAll ctx (send_dispatch st ctx sp).1 rest).1.nextTid =
        st.nextTid + (sp :: rest).length
      rw [hqeq, ih2, hlen]
      show st.nextTid + 1 + rest.length = st.nextTid + (rest.length + 1)
      omega

/-- C5: across a sequence of fresh requests (tid `0`) dispatched against one
image, the assigned transaction ids are strictly increasing, pairwise
distinct and never `0` (so a request with tid `0` is recognisably
unassigned); the tid is assigned exactly once, on the first entry to
`send_dispatch` — a request whose tid is already non-zero is passed through
with its tid, its state and the counter unchanged. -/
theorem tid_monotonic (ctx : ImageCtx) (st : DispatcherState)
    (specs : List ImageDispatchSpec)
    (hall : ∀ sp ∈ specs, sp.tid = 0)
    (hbound : st.nextTid + specs.length < 2 ^ 64) :
    List.Pairwise (· < ·)
      ((dispatchAll ctx st specs).2.map ImageDispatchSpec.tid) ∧
    ((dispatchAll ctx st specs).2.map ImageDispatchSpec.tid).Nodup ∧
    (∀ t ∈ (dispatchAll ctx st specs).2.map ImageDispatchSpec.tid, t ≠ 0) ∧
    (∀ sp, sp.tid ≠ 0 → send_dispatch st ctx sp = (st, DispatchStep.toLayer sp)) := by
  obtain ⟨h1, -⟩ := dispatchAll_spec ctx specs st hall hbound
  rw [h1]
  have hpw : List.Pairwise (· < ·)
      ((List.range specs.length).map (fun i => st.nextTid + i + 1)) :=
    List.Pairwise.map _ (fun a b hab => by omega) (List.pairwise_lt_range _)
  refine ⟨hpw, hpw.imp (fun hab => Nat.ne_of_lt hab), ?_, ?_⟩
  · intro t ht
    simp only [List.mem_map, List.mem_range] at ht
    obtain ⟨i, -, rfl⟩ := ht
    omega
  · intro sp hsp
    simp [send_dispatch, hsp]

/-- Witness for C5: dispatching two fresh requests from counter `0` yields
tids `1` and `2`; a request carrying tid `1` is passed through unchanged. -/
theorem tid_monotonic_witness :
    List.Pairwise (· < ·)
      ((dispatchAll exCtx ⟨0⟩ [exFlushSpec, exWriteSpec]).2.map
        ImageDispatchSpec.tid) ∧
    ((dispatchAll exCtx ⟨0⟩ [exFlushSpec, exWriteSpec]).2.map
        ImageDispatchSpec.tid).Nodup ∧
    (∀ t ∈ (dispatchAll exCtx ⟨0⟩ [exFlushSpec, exWriteSpec]).2.map
        ImageDispatchSpec.tid, t ≠ 0) ∧
    (∀ sp, sp.tid ≠ 0 →
      send_dispatch ⟨0⟩ exCtx sp = (⟨0⟩, DispatchStep.toLayer sp)) :=
  tid_monotonic exCtx ⟨0⟩ [exFlushSpec, exWriteSpec] (by decide) (by decide)

/-- C9 (amended): dispatcher shutdown performs no cache invalidation; its
synchronous body only starts the throwaway operation and issues the flush
through it; the registered layers are torn down — in the reverse of
registration order — only among the actions triggered by the flush's
completion, strictly before the throwaway operation is finish_op'ed, which
in turn precedes its destruction and the caller's completion; and the flush
completion cannot fire before every operation tracked at the attach point
has finished (the final barrier conjunct, via the tracker model). -/
theorem shutdown_sequencing (s s₁ s₂ : Tracker) (F cb : Nat) (evs : List Ev)
    (hwf : WFTracker s) (hF : F ∉ s.startedEver)
    (hcb : ∀ o, cb ∉ s.fc o) (hcb2 : cb ∉ postedCbs s)
    (hattach : runO s [Ev.start F, Ev.flush F cb] = some s₁)
    (hrun : runO s₁ evs = some s₂)
    (hnocb : ∀ x, Ev.flush x cb ∉ evs) :
    shutDownImmediateActions =
      [ShutdownAction.startThrowawayOp, ShutdownAction.flushThrowawayOp] ∧
    ShutdownAction.invalidateCache ∉ shutDownActions ∧
    baseShutDownActions =
      [ShutdownAction.shutDownLayer Layer.writeBlock,
       ShutdownAction.shutDownLayer Layer.refresh,
       ShutdownAction.shutDownLayer Layer.qos,
       ShutdownAction.shutDownLayer Layer.queue,
       ShutdownAction.shutDownLayer Layer.core] ∧
    (∀ l ∈ registrationOrder,
       shutDownOnFlushActions.indexOf (ShutdownAction.shutDownLayer l) <
         shutDownOnFlushActions.indexOf ShutdownAction.finishThrowawayOp) ∧
    shutDownOnFlushActions.indexOf ShutdownAction.finishThrowawayOp <
      shutDownOnFlushActions.indexOf ShutdownAction.destroyThrowawayOp ∧
    shutDownOnFlushActions.indexOf ShutdownAction.destroyThrowawayOp <
      shutDownOnFlushActions.indexOf ShutdownAction.completeCaller ∧
    (cb ∈ postedCbs s₂ ↔ ∀ p ∈ s.ops, p ∉ s₂.ops) := by
  refine ⟨by decide, by decide, by decide, by decide, by decide, by decide, ?_⟩
  exact barrier_of_inv s.ops cb s₂
    (barrierInv_run s.ops cb evs s₁ s₂
      (barrierInv_attach s s₁ F cb hwf hF hcb hcb2 hattach) hrun hnocb)

/-- Witness for C9: one tracked operation (`3`) is in flight; shutdown's
throwaway operation `6` is started and the shutdown flush callback `8`
attached through it; the flush fires exactly when operation `3` finishes. -/
theorem shutdown_sequencing_witness :
    shutDownImmediateActions =
      [ShutdownAction.startThrowawayOp, ShutdownAction.flushThrowawayOp] ∧
    ShutdownAction.invalidateCache ∉ shutDownActions ∧
    baseShutDownActions =
      [ShutdownAction.shutDownLayer Layer.writeBlock,
       ShutdownAction.shutDownLayer Layer.refresh,
       ShutdownAction.shutDownLayer Layer.qos,
       ShutdownAction.shutDownLayer Layer.queue,
       ShutdownAction.shutDownLayer Layer.core] ∧
    (∀ l ∈ registrationOrder,
       shutDownOnFlushActions.indexOf (ShutdownAction.shutDownLayer l) <
         shutDownOnFlushActions.indexOf ShutdownAction.finishThrowawayOp) ∧
    shutDownOnFlushActions.indexOf ShutdownAction.finishThrowawayOp <
      shutDownOnFlushActions.indexOf ShutdownAction.destroyThrowawayOp ∧
    shutDownOnFlushActions.indexOf ShutdownAction.destroyThrowawayOp <
      shutDownOnFlushActions.indexOf ShutdownAction.completeCaller ∧
    (8 ∈ postedCbs exTrackerB2 ↔ ∀ p ∈ exTrackerB0.ops, p ∉ exTrackerB2.ops) :=
  shutdown_sequencing exTrackerB0 exTrackerB1 exTrackerB2 6 8 [Ev.finish 3]
    ⟨by decide, by decide⟩ (by decide) (fun o => List.not_mem_nil 8) (by decide)
    rfl rfl (by intro x h; simp at h)

end Librbd
